import Mathlib

/- Shallow embedding of the nba-biplayer-statistics repository
   (src/utils.py and src/parsing.py). Python strings are modelled as lists
   of characters, pandas DataFrames as Lean lists of row records, Python
   floats as rationals, and fallible Python code as Option/Except. -/

/-- A normalized game row: the x and y score coordinates and a date label
(the columns x, y, date of the team table produced by get_stats). -/
structure GameRow where
  x : Int
  y : Int
  date : String
deriving DecidableEq, Repr

/-- A player row before its score column is dropped (the columns x, y,
date, score of the player table produced by get_stats). -/
structure PlayerRow where
  x : Int
  y : Int
  date : String
  score : Int
deriving DecidableEq, Repr

/-- A game row annotated with the color and ecolor columns added by
in_dfs_to_color. -/
structure ColoredRow where
  row : GameRow
  color : String
  ecolor : String
deriving DecidableEq, Repr

/-- Helper for digitRuns: walks the characters keeping the current run of
digits (reversed) in the accumulator, mirroring how re.findall with the
digit-run pattern scans a string left to right. -/
def digitRunsAux : List Char → List Char → List (List Char)
  | [], acc => if acc = [] then [] else [acc.reverse]
  | c :: rest, acc =>
    if c.isDigit then digitRunsAux rest (c :: acc)
    else if acc = [] then digitRunsAux rest []
    else acc.reverse :: digitRunsAux rest []

/-- The list of maximal decimal-digit runs of a string, left to right: the
counterpart of re.findall with the digit-run pattern, as used by
score_to_tuple and date_convert in src/utils.py. -/
def digitRuns (s : List Char) : List (List Char) :=
  digitRunsAux s []

/-- Decimal value of a digit run: the counterpart of int applied to a run
found by re.findall. -/
def runToNat (l : List Char) : Nat :=
  l.foldl (fun a c => a * 10 + (c.toNat - 48)) 0

/-- The character alphabet accepted by score_to_tuple in src/utils.py. -/
def score_alphabet : List Char := "0123456789-WLOT ".toList

/-- Whether a character belongs to the alphabet accepted by
score_to_tuple. -/
def allowedChar (c : Char) : Bool := score_alphabet.contains c

/-- score_to_tuple from src/utils.py: none when some character is outside
the alphabet; otherwise the first two digit runs as integers, kept in
left-to-right order when the label contains W and reversed otherwise. -/
def score_to_tuple (score : List Char) : Option (List Nat) :=
  if !(score.all allowedChar) then none
  else
    let numbers := ((digitRuns score).map runToNat).take 2
    if 'W' ∈ score then some numbers
    else some numbers.reverse

/-- The character of a decimal digit value below ten. -/
def digitChar (n : Nat) : Char := Char.ofNat (48 + n)

/-- Fuel-driven construction of the decimal representation of a natural
number, most significant digit first. -/
def natToCharsAux : Nat → Nat → List Char
  | 0, _ => []
  | fuel + 1, n =>
    if n < 10 then [digitChar n]
    else natToCharsAux fuel (n / 10) ++ [digitChar (n % 10)]

/-- Decimal string representation of a natural number: the counterpart of
the Python f-string interpolation of an int in date_convert. -/
def natToChars (n : Nat) : List Char := natToCharsAux (n + 1) n

/-- Replacement of the first occurrence of a nonempty pattern in a string:
the counterpart of Python str.replace with count one. -/
def replaceFirst : List Char → List Char → List Char → List Char
  | [], _, _ => []
  | c :: rest, pat, rep =>
    if pat.isPrefixOf (c :: rest) then rep ++ (c :: rest).drop pat.length
    else c :: replaceFirst rest pat rep

/-- The list of three-letter month abbreviations of date_convert. -/
def months : List String :=
  ["Jan", "Feb", "Mar", "Apr", "May", "Jun",
   "Jul", "Aug", "Sep", "Oct", "Nov", "Dec"]

/-- The number_to_month dictionary of date_convert: month numbers one to
twelve map to the replacement text built around the month abbreviation;
a lookup of any other key raises, modelled as none. -/
def number_to_month (m : Nat) : Option (List Char) :=
  if 1 ≤ m ∧ m ≤ 12 then
    some ((", " ++ months.getD (m - 1) "" ++ " ").toList)
  else none

/-- date_convert from src/utils.py: the first digit run gives the month
number, whose decimal representation is replaced (first occurrence) by the
month text; then the first space is removed and every slash is removed.
The IndexError and KeyError raised on a wrong format are modelled as
error values. -/
def date_convert (date : List Char) : Except String (List Char) :=
  match digitRuns date with
  | [] => Except.error "Wrong format: month number not found."
  | run :: _ =>
    let month_number := runToNat run
    match number_to_month month_number with
    | none => Except.error "Wrong format: day not found."
    | some rep =>
      let s1 := replaceFirst date (natToChars month_number) rep
      let s2 := replaceFirst s1 [' '] []
      Except.ok (s2.filter (fun c => !(c == '/')))

/-- row_in_df from src/utils.py: whether some row of the table is
component-wise equal to the given row. -/
def row_in_df (row : GameRow) (df : List GameRow) : Bool :=
  df.any (fun r => r == row)

/-- keep_row_if_in_df from src/utils.py: the original row when the probe
row occurs in the table, otherwise the empty Series, modelled as none. -/
def keep_row_if_in_df (df : List GameRow) (row_original : PlayerRow)
    (row_changed : GameRow) : Option PlayerRow :=
  if row_in_df row_changed df then some row_original else none

/-- The fixed participation-to-color lookup dict_colors built by
in_dfs_to_color in src/parsing.py. -/
def dict_colors (player1_color player2_color both_color neutral_color : String) :
    Bool × Bool → String
  | (false, false) => neutral_color
  | (true, false) => player1_color
  | (false, true) => player2_color
  | (true, true) => both_color

/-- in_dfs_to_color from src/parsing.py: every team row is paired with its
membership in the two player tables, the pair is sent through dict_colors,
and the ecolor is the color unless the color equals the neutral color, in
which case it is the neutral ecolor. -/
def in_dfs_to_color (df : List GameRow) (df1 df2 : List GameRow)
    (player1_color player2_color both_color neutral_color neutral_ecolor : String) :
    List ColoredRow :=
  df.map fun r =>
    let color := dict_colors player1_color player2_color both_color neutral_color
      (row_in_df r df1, row_in_df r df2)
    { row := r, color := color,
      ecolor := if color ≠ neutral_color then color else neutral_ecolor }

/-- get_plotting_dfs from src/parsing.py: the rows whose color equals the
requested color are kept unchanged, the remaining rows get both color and
ecolor overwritten with the neutral color; the greyed table comes first. -/
def get_plotting_dfs (df : List ColoredRow) (color neutral_color : String) :
    List ColoredRow × List ColoredRow :=
  let df_color_yes := df.filter (fun r => r.color == color)
  let df_color_no := (df.filter (fun r => !(r.color == color))).map
    (fun r => { r with color := neutral_color, ecolor := neutral_color })
  (df_color_no, df_color_yes)

/-- Rounding of a rational to an integer, half to even: the rational model
of the Python builtin round of a float to an integer. -/
def roundHalfEven (q : ℚ) : ℤ :=
  if q - ⌊q⌋ < 1/2 then ⌊q⌋
  else if (1 : ℚ)/2 < q - ⌊q⌋ then ⌊q⌋ + 1
  else if ⌊q⌋ % 2 = 0 then ⌊q⌋ else ⌊q⌋ + 1

/-- The rational model of the Python builtin round with a precision. -/
def pythonRound (q : ℚ) (p : ℤ) : ℚ :=
  (roundHalfEven (q * 10 ^ p) : ℚ) / 10 ^ p

/-- get_wins_percentage from src/utils.py: the share of rows with x below
y, as a rounded percentage; the ZeroDivisionError branch of the source
returns zero for an empty table. -/
def get_wins_percentage (df : List GameRow) (precision : ℤ) : ℚ :=
  if df.length = 0 then 0
  else
    pythonRound
      (((df.filter (fun r => r.x < r.y)).length : ℚ) / (df.length : ℚ) * 100)
      precision

/-- One zipped element of the four parallel sequences handed to
sort_as_one by get_final_data: win ratio, plotting table pair, category
color and descriptive label. -/
structure CategoryResult where
  ratio : ℚ
  dfs : List ColoredRow × List ColoredRow
  color : String
  label : String
deriving DecidableEq, Repr

/-- Python comparison of two zipped tuples as performed inside sorted: the
leading ratios are compared first; on a tie the comparison falls through
to the DataFrame pair, whose truth test raises a ValueError, modelled as
an error value. -/
def tuple_lt (a b : CategoryResult) : Except String Bool :=
  if a.ratio = b.ratio then
    Except.error "The truth value of a DataFrame is ambiguous."
  else Except.ok (decide (a.ratio < b.ratio))

/-- Insertion of one element into a descending-sorted list, comparing with
tuple_lt: the element moves past every strictly larger element. -/
def sortedInsertRev (x : CategoryResult) :
    List CategoryResult → Except String (List CategoryResult)
  | [] => Except.ok [x]
  | y :: ys =>
    match tuple_lt x y with
    | Except.error e => Except.error e
    | Except.ok true => do
        let r ← sortedInsertRev x ys
        Except.ok (y :: r)
    | Except.ok false => Except.ok (x :: y :: ys)

/-- The fallible descending comparison sort underlying sort_as_one with
reverse set: the model of the Python builtin sorted over zipped tuples. -/
def sortedRev : List CategoryResult → Except String (List CategoryResult)
  | [] => Except.ok []
  | x :: xs => do
    let r ← sortedRev xs
    sortedInsertRev x r

/-- sort_as_one from src/utils.py at its single call site: zip bundles the
four parallel sequences into CategoryResult records, sorted with reverse
set orders them descending, and the transposing zip on the way out is the
identity on the bundled records. -/
def sort_as_one (l : List CategoryResult) : Except String (List CategoryResult) :=
  sortedRev l

/-- Zipping of four lists, truncating at the shortest, as the Python
builtin zip does. -/
def zip4 {α β γ δ : Type} :
    List α → List β → List γ → List δ → List (α × β × γ × δ)
  | a :: la, b :: lb, c :: lc, d :: ld => (a, b, c, d) :: zip4 la lb lc ld
  | _, _, _, _ => []

/-- The four descriptive labels text_ends built by get_final_data. -/
def text_ends (name1 name2 : String) : List String :=
  ["with " ++ name1 ++ " and no " ++ name2,
   "with " ++ name2 ++ " and no " ++ name1,
   "with both " ++ name1 ++ " and " ++ name2,
   "with neither " ++ name1 ++ " and " ++ name2]

/-- get_final_data from src/parsing.py: per requested color, the plotting
pair and the win percentage of the rows of that color; the four parallel
sequences are zipped and sorted descending by sort_as_one. -/
def get_final_data (df : List ColoredRow) (colors : List String)
    (neutral_color : String) (player_names : String × String) :
    Except String (List CategoryResult) :=
  let df_tuples := colors.map (fun c => get_plotting_dfs df c neutral_color)
  let percentages := colors.map (fun c =>
    get_wins_percentage ((df.filter (fun r => r.color == c)).map (fun r => r.row)) 2)
  let ends := text_ends player_names.1 player_names.2
  sort_as_one ((zip4 percentages df_tuples colors ends).map
    (fun e => ⟨e.1, e.2.1, e.2.2.1, e.2.2.2⟩))

/-- The ordering on zipped category records that sorted realizes when all
ratios are distinct: descending by ratio. -/
def ratioGE (a b : CategoryResult) : Prop := b.ratio ≤ a.ratio

instance : DecidableRel ratioGE :=
  fun a b => inferInstanceAs (Decidable (b.ratio ≤ a.ratio))

instance : IsTotal CategoryResult ratioGE :=
  ⟨fun a b => le_total b.ratio a.ratio⟩

instance : IsTrans CategoryResult ratioGE :=
  ⟨fun _ _ _ h1 h2 => le_trans h2 h1⟩

/-- A concrete classified dataset exercising get_final_data on tied win
ratios: the red category is one won game and the blue category is two won
games, so both win ratios are one hundred while the plotting pairs of the
two categories differ. -/
def tieDf : List ColoredRow :=
  [⟨⟨90, 100, "a"⟩, "red", "red"⟩,
   ⟨⟨80, 100, "b"⟩, "blue", "blue"⟩,
   ⟨⟨70, 100, "c"⟩, "blue", "blue"⟩]

/-- Four concrete category records with pairwise distinct win ratios. -/
def catExample : List CategoryResult :=
  [⟨10, ([], []), "red", "r"⟩,
   ⟨90, ([], []), "blue", "b"⟩,
   ⟨50, ([], []), "purple", "p"⟩,
   ⟨30, ([], []), "grey", "g"⟩]

/-- Characters produced by digitChar below ten are decimal digits. -/
theorem digitChar_isDigit {n : Nat} (h : n < 10) : (digitChar n).isDigit = true := by
  interval_cases n <;> decide

/-- Decimal value of a digitChar below ten. -/
theorem digitChar_toNat {n : Nat} (h : n < 10) : (digitChar n).toNat - 48 = n := by
  interval_cases n <;> decide

/-- Every character of a fuel-built decimal representation is a digit. -/
theorem natToCharsAux_isDigit (fuel : Nat) :
    ∀ (n : Nat), ∀ c ∈ natToCharsAux fuel n, c.isDigit = true := by
  induction fuel with
  | zero => intro n c hc; simp [natToCharsAux] at hc
  | succ fuel ih =>
    intro n c hc
    simp only [natToCharsAux] at hc
    split at hc
    · next h =>
      simp only [List.mem_singleton] at hc
      subst hc
      exact digitChar_isDigit h
    · next h =>
      rcases List.mem_append.mp hc with hc1 | hc1
      · exact ih _ c hc1
      · simp only [List.mem_singleton] at hc1
        subst hc1
        exact digitChar_isDigit (Nat.mod_lt _ (by omega))

/-- Every character of the decimal representation is a digit. -/
theorem natToChars_isDigit (n : Nat) : ∀ c ∈ natToChars n, c.isDigit = true :=
  natToCharsAux_isDigit _ _

/-- The fuel-built decimal representation is nonempty when fueled. -/
theorem natToCharsAux_ne_nil (fuel n : Nat) (h : n < fuel) :
    natToCharsAux fuel n ≠ [] := by
  cases fuel with
  | zero => omega
  | succ fuel =>
    simp only [natToCharsAux]
    split
    · simp
    · simp

/-- The decimal representation of a natural number is nonempty. -/
theorem natToChars_ne_nil (n : Nat) : natToChars n ≠ [] :=
  natToCharsAux_ne_nil _ _ (Nat.lt_succ_self n)

/-- Folding the decimal-value accumulator across an append. -/
theorem runToNat_append (l1 l2 : List Char) :
    runToNat (l1 ++ l2) =
      l2.foldl (fun a c => a * 10 + (c.toNat - 48)) (runToNat l1) := by
  simp [runToNat, List.foldl_append]

/-- Reading back the fuel-built decimal representation gives the number. -/
theorem runToNat_natToCharsAux (fuel : Nat) :
    ∀ (n : Nat), n < fuel → runToNat (natToCharsAux fuel n) = n := by
  induction fuel with
  | zero => omega
  | succ fuel ih =>
    intro n hn
    simp only [natToCharsAux]
    split
    · next h10 =>
      simp only [runToNat, List.foldl]
      rw [Nat.zero_mul, Nat.zero_add]
      exact digitChar_toNat h10
    · next h10 =>
      rw [runToNat_append]
      simp only [List.foldl]
      rw [ih (n / 10) (by omega)]
      rw [digitChar_toNat (Nat.mod_lt _ (by omega))]
      omega

/-- Reading back the decimal representation gives the number. -/
theorem runToNat_natToChars (n : Nat) : runToNat (natToChars n) = n :=
  runToNat_natToCharsAux _ _ (Nat.lt_succ_self n)

/-- Scanning past a block of non-digit characters finds no run. -/
theorem digitRunsAux_nondigit (l1 : List Char) (h : ∀ c ∈ l1, c.isDigit = false) :
    ∀ l2, digitRunsAux (l1 ++ l2) [] = digitRunsAux l2 [] := by
  induction l1 with
  | nil => intro l2; rfl
  | cons c rest ih =>
    intro l2
    have hc := h c (by simp)
    simp only [List.cons_append, digitRunsAux, hc]
    simp only [Bool.false_eq_true, if_false, if_pos rfl]
    exact ih (fun x hx => h x (by simp [hx])) l2

/-- Scanning a block of digit characters accumulates them in reverse. -/
theorem digitRunsAux_digits (ds : List Char) (h : ∀ c ∈ ds, c.isDigit = true) :
    ∀ l2 acc, digitRunsAux (ds ++ l2) acc = digitRunsAux l2 (ds.reverse ++ acc) := by
  induction ds with
  | nil => intro l2 acc; rfl
  | cons c rest ih =>
    intro l2 acc
    have hc := h c (by simp)
    simp only [List.cons_append, digitRunsAux, hc, if_pos, List.append_eq]
    rw [ih (fun x hx => h x (by simp [hx])) l2 (c :: acc)]
    simp [List.append_assoc]

/-- The first digit run of a string of the form nondigits, digits, then a
non-digit boundary is exactly the digit block. -/
theorem digitRuns_form (wd1 mStr rest : List Char) (c2 : Char)
    (hwd : ∀ c ∈ wd1, c.isDigit = false)
    (hm : ∀ c ∈ mStr, c.isDigit = true) (hm0 : mStr ≠ [])
    (hc2 : c2.isDigit = false) :
    digitRuns (wd1 ++ mStr ++ c2 :: rest) = mStr :: digitRuns rest := by
  unfold digitRuns
  rw [List.append_assoc, digitRunsAux_nondigit wd1 hwd,
    digitRunsAux_digits mStr hm]
  simp only [digitRunsAux, hc2, Bool.false_eq_true, if_false, List.append_nil]
  rw [if_neg (by simpa using hm0)]
  simp

/-- replaceFirst walks past characters that cannot start the pattern. -/
theorem replaceFirst_append_skip (l1 l2 pat rep : List Char) (p : Char)
    (pr : List Char) (hpat : pat = p :: pr) (hne : ∀ c ∈ l1, c ≠ p) :
    replaceFirst (l1 ++ l2) pat rep = l1 ++ replaceFirst l2 pat rep := by
  induction l1 with
  | nil => rfl
  | cons c rest ih =>
    have hc := hne c (by simp)
    subst hpat
    simp only [List.cons_append, replaceFirst, List.append_eq]
    rw [if_neg, ih (fun x hx => hne x (by simp [hx]))]
    simp only [List.isPrefixOf, Bool.and_eq_true, beq_iff_eq]
    intro hcontra
    exact hc hcontra.1.symm

/-- replaceFirst fires on an occurrence of the pattern at the front. -/
theorem replaceFirst_here (pat l2 rep : List Char) (hp : pat ≠ []) :
    replaceFirst (pat ++ l2) pat rep = rep ++ l2 := by
  cases pat with
  | nil => exact absurd rfl hp
  | cons p pr =>
    simp only [List.cons_append, replaceFirst, List.append_eq]
    rw [if_pos]
    · simp only [List.length_cons, List.drop_succ_cons]
      rw [List.drop_left]
    · exact List.isPrefixOf_iff_prefix.mpr (List.prefix_append _ _)

/-- A digit character is not a slash. -/
theorem not_beq_slash_of_isDigit {c : Char} (h : c.isDigit = true) :
    (!(c == '/')) = true := by
  by_cases hc : c = '/'
  · subst hc; simp at h
  · simp [hc]

/-- The month lookup fails exactly outside the range one to twelve. -/
theorem number_to_month_eq_none (m : Nat) :
    number_to_month m = none ↔ ¬(1 ≤ m ∧ m ≤ 12) := by
  unfold number_to_month
  split <;> simp_all

/-- The month replacement text contains no slash. -/
theorem months_no_slash (m : Nat) (h1 : 1 ≤ m) (h2 : m ≤ 12) :
    ∀ c ∈ (", " ++ months.getD (m - 1) "" ++ " ").toList, (!(c == '/')) = true := by
  interval_cases m <;> decide

/-- Under distinct ratios, the fallible insertion of sortedInsertRev
agrees with the pure ordered insertion for the descending ratio order. -/
theorem sortedInsertRev_eq (x : CategoryResult) (l : List CategoryResult)
    (h : ∀ y ∈ l, x.ratio ≠ y.ratio) :
    sortedInsertRev x l = Except.ok (List.orderedInsert ratioGE x l) := by
  induction l with
  | nil => rfl
  | cons y ys ih =>
    have hy := h y (by simp)
    simp only [sortedInsertRev, tuple_lt, if_neg hy, List.orderedInsert]
    by_cases hlt : x.ratio < y.ratio
    · rw [decide_eq_true hlt, ih (fun z hz => h z (by simp [hz]))]
      rw [if_neg (show ¬ ratioGE x y from fun hge => (not_lt.mpr hge) hlt)]
      rfl
    · rw [decide_eq_false hlt,
        if_pos (show ratioGE x y from le_of_not_lt hlt)]

/-- Under pairwise distinct ratios, the fallible sort of sortedRev agrees
with the pure insertion sort for the descending ratio order. -/
theorem sortedRev_eq (l : List CategoryResult)
    (h : List.Pairwise (fun a b => a.ratio ≠ b.ratio) l) :
    sortedRev l = Except.ok (List.insertionSort ratioGE l) := by
  induction l with
  | nil => rfl
  | cons x xs ih =>
    rcases List.pairwise_cons.mp h with ⟨hx, hxs⟩
    show (sortedRev xs).bind (fun r => sortedInsertRev x r) = _
    rw [ih hxs]
    show sortedInsertRev x (List.insertionSort ratioGE xs) = _
    exact sortedInsertRev_eq x _
      (fun y hy => hx y ((List.perm_insertionSort ratioGE xs).subset hy))

/-- C1 counterexample: the label W100-200 lies entirely in the permitted
alphabet, contains W and parses to the two-element pair 100, 200, whose
first element is smaller than its second, so the pair returned by
score_to_tuple is not always oriented winner-first for labels with W. -/
theorem score_to_tuple_winner_first_cex :
    (∀ c ∈ "W100-200".toList, allowedChar c = true)
    ∧ 'W' ∈ "W100-200".toList
    ∧ score_to_tuple "W100-200".toList = some [100, 200]
    ∧ ¬(200 ≤ 100) := by decide

/-- C1, amended: for every score label in the permitted alphabet that
contains W and parses to a two-element pair, the pair keeps the digit-run
order of the label, so its first element is at least its second whenever
the first digit run of the label is at least the second. -/
theorem score_to_tuple_winner_first (s : List Char) (a b : Nat) (rest : List Nat)
    (hall : ∀ c ∈ s, allowedChar c = true) (hw : 'W' ∈ s)
    (hruns : (digitRuns s).map runToNat = a :: b :: rest) (hab : b ≤ a) :
    score_to_tuple s = some [a, b] ∧ b ≤ a := by
  have hallb : s.all allowedChar = true := List.all_eq_true.mpr hall
  refine ⟨?_, hab⟩
  simp only [score_to_tuple, hallb, Bool.not_true, Bool.false_eq_true, if_false,
    hruns, if_pos hw]
  rfl

/-- C1 witness: the theorem applied to the label W131-118. -/
theorem score_to_tuple_winner_first_witness :
    (∀ c ∈ "W131-118".toList, allowedChar c = true)
    ∧ 'W' ∈ "W131-118".toList
    ∧ (digitRuns "W131-118".toList).map runToNat = [131, 118]
    ∧ (118 ≤ 131)
    ∧ (score_to_tuple "W131-118".toList = some [131, 118] ∧ 118 ≤ 131) :=
  ⟨by decide, by decide, by decide, by decide,
    score_to_tuple_winner_first "W131-118".toList 131 118 []
      (by decide) (by decide) (by decide) (by decide)⟩

/-- C2: score_to_tuple returns none exactly when some character lies
outside the alphabet of digits, W, L, O, T, hyphen and space; otherwise it
returns the first two digit runs as integers, kept left to right when the
label contains W and reversed otherwise; with the three concrete examples
of the specification. -/
theorem score_to_tuple_spec :
    (∀ s : List Char, score_to_tuple s = none ↔ ¬∀ c ∈ s, allowedChar c = true)
    ∧ (∀ s : List Char, (∀ c ∈ s, allowedChar c = true) →
        score_to_tuple s =
          some (if 'W' ∈ s then ((digitRuns s).map runToNat).take 2
                else (((digitRuns s).map runToNat).take 2).reverse))
    ∧ score_to_tuple "W131-118".toList = some [131, 118]
    ∧ score_to_tuple "L112-109".toList = some [109, 112]
    ∧ score_to_tuple "garbage!!".toList = none := by
  refine ⟨?_, ?_, by decide, by decide, by decide⟩
  · intro s
    cases hall : s.all allowedChar with
    | true =>
      simp only [score_to_tuple, hall, Bool.not_true, Bool.false_eq_true, if_false]
      constructor
      · intro hcontra
        split at hcontra <;> exact Option.noConfusion hcontra
      · intro hcontra
        exact absurd (List.all_eq_true.mp hall) hcontra
    | false =>
      simp only [score_to_tuple, hall, Bool.not_false, if_true, true_iff]
      intro hcontra
      rw [List.all_eq_true.mpr hcontra] at hall
      exact Bool.noConfusion hall
  · intro s hall
    have hallb : s.all allowedChar = true := List.all_eq_true.mpr hall
    simp only [score_to_tuple, hallb, Bool.not_true, Bool.false_eq_true, if_false]
    by_cases hw : 'W' ∈ s <;> simp [hw]

/-- C2 witness: the second conjunct applied to the label W123-120 OT. -/
theorem score_to_tuple_spec_witness :
    (∀ c ∈ "W123-120 OT".toList, allowedChar c = true)
    ∧ score_to_tuple "W123-120 OT".toList =
        some (if 'W' ∈ "W123-120 OT".toList
              then ((digitRuns "W123-120 OT".toList).map runToNat).take 2
              else (((digitRuns "W123-120 OT".toList).map runToNat).take 2).reverse) :=
  ⟨by decide, score_to_tuple_spec.2.1 "W123-120 OT".toList (by decide)⟩

/-- C3: every row of the classified table carries the color given by the
fixed lookup on its membership pair in the two player tables, exactly one
of the four membership combinations holds for it, and its ecolor is its
color unless the color is the neutral color, in which case the ecolor is
the supplied neutral ecolor. -/
theorem in_dfs_to_color_spec (df df1 df2 : List GameRow)
    (player1_color player2_color both_color neutral_color neutral_ecolor : String)
    (cr : ColoredRow)
    (hcr : cr ∈ in_dfs_to_color df df1 df2 player1_color player2_color both_color
      neutral_color neutral_ecolor) :
    cr.color = dict_colors player1_color player2_color both_color neutral_color
        (row_in_df cr.row df1, row_in_df cr.row df2)
    ∧ cr.ecolor = (if cr.color = neutral_color then neutral_ecolor else cr.color)
    ∧ [(!row_in_df cr.row df1 && !row_in_df cr.row df2),
       (row_in_df cr.row df1 && !row_in_df cr.row df2),
       (!row_in_df cr.row df1 && row_in_df cr.row df2),
       (row_in_df cr.row df1 && row_in_df cr.row df2)].count true = 1 := by
  rcases List.mem_map.mp hcr with ⟨r, hr, rfl⟩
  refine ⟨rfl, ?_, ?_⟩
  · show (if dict_colors player1_color player2_color both_color neutral_color
        (row_in_df r df1, row_in_df r df2) ≠ neutral_color then _ else neutral_ecolor) = _
    by_cases hn : dict_colors player1_color player2_color both_color neutral_color
        (row_in_df r df1, row_in_df r df2) = neutral_color
    · rw [if_neg (by simpa using hn)]
      show neutral_ecolor = if _ = neutral_color then neutral_ecolor else _
      rw [if_pos hn]
    · rw [if_pos hn]
      show _ = if dict_colors player1_color player2_color both_color neutral_color
          (row_in_df r df1, row_in_df r df2) = neutral_color then neutral_ecolor else _
      rw [if_neg hn]
  · cases hb1 : row_in_df r df1 <;> cases hb2 : row_in_df r df2 <;> decide

/-- C3 witness: the theorem applied to a one-row team table whose game
appears in the first player table only. -/
theorem in_dfs_to_color_spec_witness :
    (⟨⟨1, 2, "a"⟩, "p1", "p1"⟩ : ColoredRow) ∈
      in_dfs_to_color [⟨1, 2, "a"⟩] [⟨1, 2, "a"⟩] [] "p1" "p2" "bc" "n" "ne"
    ∧ ((⟨⟨1, 2, "a"⟩, "p1", "p1"⟩ : ColoredRow).color =
        dict_colors "p1" "p2" "bc" "n"
          (row_in_df (⟨1, 2, "a"⟩ : GameRow) [⟨1, 2, "a"⟩],
           row_in_df (⟨1, 2, "a"⟩ : GameRow) [])
      ∧ (⟨⟨1, 2, "a"⟩, "p1", "p1"⟩ : ColoredRow).ecolor =
          (if (⟨⟨1, 2, "a"⟩, "p1", "p1"⟩ : ColoredRow).color = "n" then "ne"
           else (⟨⟨1, 2, "a"⟩, "p1", "p1"⟩ : ColoredRow).color)
      ∧ [(!row_in_df (⟨1, 2, "a"⟩ : GameRow) [⟨1, 2, "a"⟩] &&
            !row_in_df (⟨1, 2, "a"⟩ : GameRow) []),
         (row_in_df (⟨1, 2, "a"⟩ : GameRow) [⟨1, 2, "a"⟩] &&
            !row_in_df (⟨1, 2, "a"⟩ : GameRow) []),
         (!row_in_df (⟨1, 2, "a"⟩ : GameRow) [⟨1, 2, "a"⟩] &&
            row_in_df (⟨1, 2, "a"⟩ : GameRow) []),
         (row_in_df (⟨1, 2, "a"⟩ : GameRow) [⟨1, 2, "a"⟩] &&
            row_in_df (⟨1, 2, "a"⟩ : GameRow) [])].count true = 1) :=
  ⟨by decide,
    in_dfs_to_color_spec [⟨1, 2, "a"⟩] [⟨1, 2, "a"⟩] [] "p1" "p2" "bc" "n" "ne"
      ⟨⟨1, 2, "a"⟩, "p1", "p1"⟩ (by decide)⟩

/-- C4: the win percentage of a nonempty table is the number of rows with
x below y divided by the row count, times one hundred, rounded at the
requested precision; the empty table gives exactly zero. -/
theorem get_wins_percentage_spec (df : List GameRow) (p : ℤ) :
    (df ≠ [] →
      get_wins_percentage df p =
        pythonRound
          (((df.filter (fun r => r.x < r.y)).length : ℚ) / (df.length : ℚ) * 100) p)
    ∧ get_wins_percentage [] p = 0 := by
  constructor
  · intro h
    rw [get_wins_percentage, if_neg (by simpa using h)]
  · rfl

/-- C4 witness: the theorem applied to a two-row table with one win. -/
theorem get_wins_percentage_spec_witness :
    ([⟨90, 100, "a"⟩, ⟨100, 90, "b"⟩] : List GameRow) ≠ []
    ∧ get_wins_percentage [⟨90, 100, "a"⟩, ⟨100, 90, "b"⟩] 2 =
        pythonRound
          (((([⟨90, 100, "a"⟩, ⟨100, 90, "b"⟩] : List GameRow).filter
              (fun r => r.x < r.y)).length : ℚ) /
            (([⟨90, 100, "a"⟩, ⟨100, 90, "b"⟩] : List GameRow).length : ℚ) * 100) 2 :=
  ⟨by decide,
    (get_wins_percentage_spec [⟨90, 100, "a"⟩, ⟨100, 90, "b"⟩] 2).1 (by decide)⟩

/-- C5: on parallel category sequences with pairwise distinct win ratios
the joint sort succeeds and returns a single joint permutation of the
zipped records, ordered descending by ratio, so every bundled plotting
pair, color and label moves in lock-step with its ratio. -/
theorem sort_as_one_distinct (l : List CategoryResult)
    (h : List.Pairwise (fun a b => a.ratio ≠ b.ratio) l) :
    ∃ out, sort_as_one l = Except.ok out ∧ l.Perm out ∧
      List.Pairwise (fun a b => b.ratio ≤ a.ratio) out :=
  ⟨List.insertionSort ratioGE l, sortedRev_eq l h,
    (List.perm_insertionSort ratioGE l).symm,
    List.sorted_insertionSort ratioGE l⟩

/-- C5 witness: the theorem applied to four categories with the distinct
ratios ten, ninety, fifty and thirty. -/
theorem sort_as_one_distinct_witness :
    List.Pairwise (fun a b : CategoryResult => a.ratio ≠ b.ratio) catExample
    ∧ ∃ out, sort_as_one catExample = Except.ok out ∧ catExample.Perm out ∧
        List.Pairwise (fun a b : CategoryResult => b.ratio ≤ a.ratio) out := by
  have pf : List.Pairwise (fun a b : CategoryResult => a.ratio ≠ b.ratio) catExample := by
    decide
  exact ⟨pf, sort_as_one_distinct catExample pf⟩

/-- C6: the splitter keeps exactly the rows of the requested color
unchanged as its highlighted output, greys out the remaining rows by
overwriting color and ecolor with the neutral color, and the two outputs
partition the input rows. -/
theorem get_plotting_dfs_spec (df : List ColoredRow) (color neutral_color : String) :
    (get_plotting_dfs df color neutral_color).2 = df.filter (fun r => r.color == color)
    ∧ (get_plotting_dfs df color neutral_color).1 =
        (df.filter (fun r => !(r.color == color))).map
          (fun r => { r with color := neutral_color, ecolor := neutral_color })
    ∧ (get_plotting_dfs df color neutral_color).1.length +
        (get_plotting_dfs df color neutral_color).2.length = df.length
    ∧ (df.filter (fun r => r.color == color) ++
        df.filter (fun r => !(r.color == color))).Perm df
    ∧ (∀ r ∈ (get_plotting_dfs df color neutral_color).2, r.color = color ∧ r ∈ df)
    ∧ (∀ r ∈ (get_plotting_dfs df color neutral_color).1,
        r.color = neutral_color ∧ r.ecolor = neutral_color) := by
  refine ⟨rfl, rfl, ?_, List.filter_append_perm _ df, ?_, ?_⟩
  · have hp := (List.filter_append_perm (fun r => r.color == color) df).length_eq
    simp only [List.length_append] at hp
    simp only [get_plotting_dfs, List.length_map]
    omega
  · intro r hr
    have hmem := List.mem_filter.mp hr
    exact ⟨by simpa using hmem.2, hmem.1⟩
  · intro r hr
    rcases List.mem_map.mp hr with ⟨r0, hr0, rfl⟩
    exact ⟨rfl, rfl⟩

/-- C6 witness: membership facts of the theorem evaluated on a concrete
two-row dataset with one red row. -/
theorem get_plotting_dfs_spec_witness :
    (⟨⟨90, 100, "a"⟩, "red", "red"⟩ : ColoredRow) ∈
      (get_plotting_dfs [⟨⟨90, 100, "a"⟩, "red", "red"⟩,
        ⟨⟨80, 100, "b"⟩, "blue", "blue"⟩] "red" "grey").2
    ∧ ((⟨⟨90, 100, "a"⟩, "red", "red"⟩ : ColoredRow).color = "red"
        ∧ (⟨⟨90, 100, "a"⟩, "red", "red"⟩ : ColoredRow) ∈
            [(⟨⟨90, 100, "a"⟩, "red", "red"⟩ : ColoredRow),
             ⟨⟨80, 100, "b"⟩, "blue", "blue"⟩]) :=
  ⟨by decide,
    (get_plotting_dfs_spec [⟨⟨90, 100, "a"⟩, "red", "red"⟩,
        ⟨⟨80, 100, "b"⟩, "blue", "blue"⟩] "red" "grey").2.2.2.2.1 _ (by decide)⟩

/-- C8: row_in_df is true exactly when some table row agrees with the
given row on every component, with exact equality and no tolerance, and
keep_row_if_in_df returns the original row exactly when the probe row is
found by that membership test and the empty row exactly otherwise. -/
theorem row_in_df_spec :
    (∀ (row : GameRow) (df : List GameRow),
        row_in_df row df = true ↔
          ∃ r ∈ df, r.x = row.x ∧ r.y = row.y ∧ r.date = row.date)
    ∧ (∀ (df : List GameRow) (ro : PlayerRow) (rc : GameRow),
        keep_row_if_in_df df ro rc = some ro ↔ row_in_df rc df = true)
    ∧ (∀ (df : List GameRow) (ro : PlayerRow) (rc : GameRow),
        keep_row_if_in_df df ro rc = none ↔ row_in_df rc df = false) := by
  refine ⟨?_, ?_, ?_⟩
  · intro row df
    simp only [row_in_df, List.any_eq_true, beq_iff_eq]
    constructor
    · rintro ⟨r, hr, rfl⟩
      exact ⟨r, hr, rfl, rfl, rfl⟩
    · rintro ⟨r, hr, hx, hy, hd⟩
      refine ⟨r, hr, ?_⟩
      cases r
      cases row
      simp_all
  · intro df ro rc
    unfold keep_row_if_in_df
    cases hb : row_in_df rc df with
    | true => simp
    | false => simp
  · intro df ro rc
    unfold keep_row_if_in_df
    cases hb : row_in_df rc df with
    | true => simp
    | false => simp

/-- C10: an empty player table rejects every membership probe, so when
both player tables are empty every classified row receives the neutral
color and the neutral ecolor. -/
theorem in_dfs_to_color_empty (df : List GameRow)
    (player1_color player2_color both_color neutral_color neutral_ecolor : String) :
    (∀ row : GameRow, row_in_df row [] = false)
    ∧ ∀ cr ∈ in_dfs_to_color df [] [] player1_color player2_color both_color
        neutral_color neutral_ecolor,
        cr.color = neutral_color ∧ cr.ecolor = neutral_ecolor := by
  refine ⟨fun row => rfl, ?_⟩
  intro cr hcr
  rcases List.mem_map.mp hcr with ⟨r, hr, rfl⟩
  constructor
  · rfl
  · show (if (dict_colors player1_color player2_color both_color neutral_color
        (row_in_df r [], row_in_df r []) ≠ neutral_color) then _ else neutral_ecolor) = _
    rw [if_neg]
    show ¬(dict_colors player1_color player2_color both_color neutral_color
      (false, false) ≠ neutral_color)
    exact fun hcontra => hcontra rfl

/-- C10 witness: the theorem applied to a one-row team table. -/
theorem in_dfs_to_color_empty_witness :
    (⟨⟨1, 2, "a"⟩, "n", "ne"⟩ : ColoredRow) ∈
      in_dfs_to_color [⟨1, 2, "a"⟩] [] [] "p1" "p2" "bc" "n" "ne"
    ∧ ((⟨⟨1, 2, "a"⟩, "n", "ne"⟩ : ColoredRow).color = "n"
        ∧ (⟨⟨1, 2, "a"⟩, "n", "ne"⟩ : ColoredRow).ecolor = "ne") :=
  ⟨by decide,
    (in_dfs_to_color_empty [⟨1, 2, "a"⟩] "p1" "p2" "bc" "n" "ne").2 _ (by decide)⟩

/-- A successful month lookup forces the month into range and fixes the
replacement text. -/
theorem number_to_month_eq_some (m : Nat) (rep : List Char)
    (h : number_to_month m = some rep) :
    (1 ≤ m ∧ m ≤ 12) ∧ rep = (", " ++ months.getD (m - 1) "" ++ " ").toList := by
  unfold number_to_month at h
  split at h
  · next hcond =>
    injection h with h
    exact ⟨hcond, h.symm⟩
  · exact Option.noConfusion h

/-- C7: date normalization maps the label Sun 6/5 to Sun, Jun 5; it
returns a value exactly when the label has a first digit run whose value
lies between one and twelve, and fails with a format error otherwise; and
on every label of the stated weekday month slash day form it returns the
weekday followed by a comma, the month abbreviation and the day. -/
theorem date_convert_spec :
    date_convert "Sun 6/5".toList = Except.ok "Sun, Jun 5".toList
    ∧ (∀ s : List Char,
        (∃ r, date_convert s = Except.ok r) ↔
          ∃ run rest, digitRuns s = run :: rest ∧
            1 ≤ runToNat run ∧ runToNat run ≤ 12)
    ∧ (∀ (wd : List Char) (m d : Nat),
        (∀ c ∈ wd, c.isDigit = false ∧ c ≠ ' ' ∧ c ≠ '/') →
        1 ≤ m → m ≤ 12 →
        date_convert (wd ++ [' '] ++ natToChars m ++ ['/'] ++ natToChars d) =
          Except.ok (wd ++ (", " ++ months.getD (m - 1) "" ++ " ").toList
            ++ natToChars d)) := by
  refine ⟨rfl, ?_, ?_⟩
  · intro s
    constructor
    · rintro ⟨r, hr⟩
      unfold date_convert at hr
      cases hdr : digitRuns s with
      | nil =>
        rw [hdr] at hr
        exact Except.noConfusion hr
      | cons run rest =>
        rw [hdr] at hr
        dsimp only at hr
        cases hm : number_to_month (runToNat run) with
        | none =>
          rw [hm] at hr
          exact Except.noConfusion hr
        | some rep =>
          rcases number_to_month_eq_some _ _ hm with ⟨⟨h1, h2⟩, _⟩
          exact ⟨run, rest, rfl, h1, h2⟩
    · rintro ⟨run, rest, hdr, h1, h2⟩
      unfold date_convert
      rw [hdr]
      dsimp only
      rw [show number_to_month (runToNat run) =
          some ((", " ++ months.getD (runToNat run - 1) "" ++ " ").toList) from by
        unfold number_to_month
        rw [if_pos ⟨h1, h2⟩]]
      exact ⟨_, rfl⟩
  · intro wd m d hwd hm1 hm2
    have hmdig : ∀ c ∈ natToChars m, c.isDigit = true := natToChars_isDigit m
    have hmne : natToChars m ≠ [] := natToChars_ne_nil m
    have hddig : ∀ c ∈ natToChars d, c.isDigit = true := natToChars_isDigit d
    have hwd1 : ∀ c ∈ wd ++ [' '], c.isDigit = false := by
      intro c hc
      rcases List.mem_append.mp hc with h | h
      · exact (hwd c h).1
      · rw [List.mem_singleton] at h
        subst h
        rfl
    have hassoc : wd ++ [' '] ++ natToChars m ++ ['/'] ++ natToChars d =
        (wd ++ [' ']) ++ natToChars m ++ '/' :: natToChars d := by
      simp [List.append_assoc]
    have hdr : digitRuns (wd ++ [' '] ++ natToChars m ++ ['/'] ++ natToChars d) =
        natToChars m :: digitRuns (natToChars d) := by
      rw [hassoc]
      exact digitRuns_form _ _ _ _ hwd1 hmdig hmne rfl
    obtain ⟨p, pr, hp⟩ : ∃ p pr, natToChars m = p :: pr := by
      cases hmc : natToChars m with
      | nil => exact absurd hmc hmne
      | cons p pr => exact ⟨p, pr, rfl⟩
    have hpdig : p.isDigit = true := hmdig p (by rw [hp]; simp)
    have hrep1 : ∀ rep : List Char,
        replaceFirst (wd ++ [' '] ++ natToChars m ++ ['/'] ++ natToChars d)
          (natToChars m) rep = (wd ++ [' ']) ++ (rep ++ '/' :: natToChars d) := by
      intro rep
      rw [hassoc, List.append_assoc (wd ++ [' '])]
      rw [replaceFirst_append_skip _ _ _ _ p pr hp (fun c hc heq => by
        have hcd := hwd1 c hc
        rw [heq, hpdig] at hcd
        exact Bool.noConfusion hcd)]
      rw [replaceFirst_here _ _ _ hmne]
    have hrep2 : ∀ X : List Char,
        replaceFirst ((wd ++ [' ']) ++ X) [' '] [] = wd ++ X := by
      intro X
      rw [List.append_assoc]
      rw [replaceFirst_append_skip _ _ _ _ ' ' [] rfl (fun c hc => (hwd c hc).2.1)]
      rw [replaceFirst_here _ _ _ (by simp)]
      simp
    have hfil : ∀ name : List Char, (∀ c ∈ name, (!(c == '/')) = true) →
        (wd ++ (name ++ '/' :: natToChars d)).filter (fun c => !(c == '/')) =
          wd ++ (name ++ natToChars d) := by
      intro name hname
      rw [List.filter_append, List.filter_append]
      congr 1
      · exact List.filter_eq_self.mpr (fun c hc => by simp [(hwd c hc).2.2])
      congr 1
      · exact List.filter_eq_self.mpr hname
      · rw [show List.filter (fun c => !(c == '/')) ('/' :: natToChars d) =
            List.filter (fun c => !(c == '/')) (natToChars d) by simp]
        exact List.filter_eq_self.mpr (fun c hc => not_beq_slash_of_isDigit (hddig c hc))
    unfold date_convert
    rw [hdr]
    dsimp only
    rw [runToNat_natToChars]
    rw [show number_to_month m =
        some ((", " ++ months.getD (m - 1) "" ++ " ").toList) from by
      unfold number_to_month
      rw [if_pos ⟨hm1, hm2⟩]]
    dsimp only
    rw [hrep1, hrep2, hfil _ (months_no_slash m hm1 hm2)]
    rw [List.append_assoc]

/-- C7 witness: the stated-form conjunct applied to the label Sat 5/7. -/
theorem date_convert_spec_witness :
    (∀ c ∈ "Sat".toList, c.isDigit = false ∧ c ≠ ' ' ∧ c ≠ '/')
    ∧ date_convert ("Sat".toList ++ [' '] ++ natToChars 5 ++ ['/'] ++ natToChars 7) =
        Except.ok ("Sat".toList ++ (", " ++ months.getD (5 - 1) "" ++ " ").toList
          ++ natToChars 7) :=
  ⟨by decide,
    date_convert_spec.2.2 "Sat".toList 5 7 (by decide) (by decide) (by decide)⟩

/-- C9: on a concrete classified dataset where the red and blue
categories tie at win ratio one hundred with distinct plotting pairs (and
the remaining two categories tie at zero), the joint sort inside
get_final_data hits a ratio tie, the tuple comparison falls through to
the DataFrame pair, and the call returns the DataFrame truth-value error
instead of an ordering. -/
theorem get_final_data_tie_error :
    get_wins_percentage ((tieDf.filter (fun r => r.color == "red")).map
        (fun r => r.row)) 2 =
      get_wins_percentage ((tieDf.filter (fun r => r.color == "blue")).map
        (fun r => r.row)) 2
    ∧ get_plotting_dfs tieDf "red" "grey" ≠ get_plotting_dfs tieDf "blue" "grey"
    ∧ get_final_data tieDf ["red", "blue", "purple", "grey"] "grey" ("A", "B") =
        Except.error "The truth value of a DataFrame is ambiguous." := by
  have hred : get_wins_percentage ((tieDf.filter (fun r => r.color == "red")).map
      (fun r => r.row)) 2 = 100 := by
    show pythonRound ((1 : ℚ) / 1 * 100) 2 = 100
    norm_num [pythonRound, roundHalfEven]
  have hblue : get_wins_percentage ((tieDf.filter (fun r => r.color == "blue")).map
      (fun r => r.row)) 2 = 100 := by
    show pythonRound ((2 : ℚ) / 2 * 100) 2 = 100
    norm_num [pythonRound, roundHalfEven]
  have hpurple : get_wins_percentage ((tieDf.filter (fun r => r.color == "purple")).map
      (fun r => r.row)) 2 = 0 := rfl
  have hgrey : get_wins_percentage ((tieDf.filter (fun r => r.color == "grey")).map
      (fun r => r.row)) 2 = 0 := rfl
  refine ⟨by rw [hred, hblue], by decide, ?_⟩
  unfold get_final_data
  simp only [List.map_cons, List.map_nil]
  rw [hred, hblue, hpurple, hgrey]
  simp only [text_ends, zip4, List.map_cons, List.map_nil, sort_as_one, sortedRev]
  rfl

